import Mathlib

/-!
Verification of the event-indexing subsystem of the storefront repository
(`src/unnamed/part_001`).  The TypeScript source is shallowly embedded:

* `PurchaseReceipt`, `Log`, `TxMeta`, `PurchaseEvent` mirror the record
  shapes used by the indexer (lines 9-15 and the web3 values it consumes);
* the in-memory database `STOREFRONT_PURCHASES` (a JS `Record<string, _>`,
  line 18) is a partial map `Ledger := String → Option PurchaseReceipt`,
  starting empty (`emptyLedger`);
* the external collaborators (web3's `decodeLog`, `getTransaction`,
  `getPastLogs`) are an explicit environment `Env` of deterministic
  functions; fallible calls return `Except String _` — a JS `throw`
  is `Except.error`;
* `processPurchases` (lines 50-79) is state-passing over the ledger,
  returning the final ledger, the console lines emitted, and the first
  propagated error (a thrown exception aborts the remaining iterations);
* `backfillFrom` / `backfillWindows` model the window loop of
  `indexPastPurchases` (lines 82-98), collecting the
  `(fromBlock, toBlock)` pairs passed to `getPastLogs`;
* `logsHandler` models the body of the `web3.eth.subscribe` callback in
  `start` (lines 107-114) as the list of actions it performs.
-/

/-- Decoded `ItemPurchased` event: the named fields produced by
`web3.eth.abi.decodeLog` against `ITEM_PURCHASED_ABI_INPUT`
(`item : string`, `quantity : uint256`; the uint is modelled as `Nat`,
identifying the decoded decimal string with the number `parseInt` yields). -/
structure PurchaseEvent where
  item : String
  quantity : Nat
deriving DecidableEq

/-- Transaction metadata returned by `web3.eth.getTransaction`:
sender, attached value (`wei`, as `Nat`), transaction hash. -/
structure TxMeta where
  «from» : String
  value : Nat
  hash : String
deriving DecidableEq

/-- A raw log as consumed by the indexer (`web3-core`'s `Log`):
only the fields the indexer reads are kept. -/
structure Log where
  transactionHash : String
  topics : List String
  data : String
  blockNumber : Nat
  logIndex : Nat
deriving DecidableEq

/-- The purchase receipt record (source lines 9-15). -/
structure PurchaseReceipt where
  «from» : String
  item : String
  quantity : Nat
  total : Nat
  transactionId : String
deriving DecidableEq

/-- The in-memory database `STOREFRONT_PURCHASES : Record<string, PurchaseReceipt>`
(source line 18), embedded as a partial map keyed by transaction hash. -/
abbrev Ledger := String → Option PurchaseReceipt

/-- The initial, empty `STOREFRONT_PURCHASES = {}`. -/
def emptyLedger : Ledger := fun _ => none

/-- JS property assignment `STOREFRONT_PURCHASES[k] = r` (source line 73). -/
def upsert (ledger : Ledger) (k : String) (r : PurchaseReceipt) : Ledger :=
  fun k' => if k' = k then some r else ledger k'

/-- The external collaborators used by the indexer, as deterministic
functions: `web3.eth.abi.decodeLog` specialised to
`ITEM_PURCHASED_ABI_INPUT`, `web3.eth.getTransaction`, and
`web3.eth.getPastLogs` restricted to the fixed `PURCHASE_FILTER`
(so only the block range varies).  A call that would throw returns
`Except.error`. -/
structure Env where
  decodeLog : Log → Except String PurchaseEvent
  getTransaction : String → Except String TxMeta
  getPastLogs : Nat → Nat → List Log

/-- The console line emitted at source lines 75-77:
    `[<hash>] <quantity> of "<item>" were purchased by <from> for <value> wei`. -/
def renderLine (txHash : String) (quantity : Nat) (item : String)
    (sender : String) (value : Nat) : String :=
  "[" ++ txHash ++ "] " ++ toString quantity ++ " of \"" ++ item ++
    "\" were purchased by " ++ sender ++ " for " ++ toString value ++ " wei"

/-- One iteration of the `for (const log of purchaseLogs)` body
(source lines 52-77): decode the log, look up the transaction,
construct the receipt, store it, emit the console line.  Returns the
updated ledger and the emitted line, or the thrown error. -/
def processOne (env : Env) (ledger : Ledger) (log : Log) :
    Except String (Ledger × String) :=
  match env.decodeLog log with
  | Except.error e => Except.error e
  | Except.ok ev =>
    match env.getTransaction log.transactionHash with
    | Except.error e => Except.error e
    | Except.ok tx =>
      let receipt : PurchaseReceipt :=
        ⟨tx.«from», ev.item, ev.quantity, tx.value, tx.hash⟩
      Except.ok (upsert ledger tx.hash receipt,
        renderLine tx.hash ev.quantity ev.item tx.«from» tx.value)

/-- `processPurchases` (source lines 50-79): iterate over the batch,
threading the ledger.  A thrown error propagates, aborting the
remaining iterations; the result carries the ledger as left by the
completed iterations, the console lines emitted so far, and the
propagated error if any. -/
def processPurchases (env : Env) (purchaseLogs : List Log) (ledger : Ledger) :
    (Ledger × List String) × Option String :=
  match purchaseLogs with
  | [] => ((ledger, []), none)
  | log :: rest =>
    match processOne env ledger log with
    | Except.error e => ((ledger, []), some e)
    | Except.ok r =>
      let next := processPurchases env rest r.1
      ((next.1.1, r.2 :: next.1.2), next.2)

/-- Whether one log would process without error: its decode and its
transaction lookup both succeed.  (Success of an iteration does not
depend on the ledger.) -/
def stepOk (env : Env) (log : Log) : Bool :=
  match env.decodeLog log, env.getTransaction log.transactionHash with
  | Except.ok _, Except.ok _ => true
  | _, _ => false

/-- The receipt a successful iteration assembles for a log
(source lines 64-70), if any. -/
def receiptFor (env : Env) (log : Log) : Option PurchaseReceipt :=
  match env.decodeLog log, env.getTransaction log.transactionHash with
  | Except.ok ev, Except.ok tx =>
      some ⟨tx.«from», ev.item, ev.quantity, tx.value, tx.hash⟩
  | _, _ => none

/-- The ledger key a successful iteration writes: `tx.hash` as returned
by the transaction lookup (source line 73), if the lookup succeeds. -/
def keyFor (env : Env) (log : Log) : Option String :=
  match env.getTransaction log.transactionHash with
  | Except.ok tx => some tx.hash
  | Except.error _ => none

/-- The ledger effect of one successful iteration; the identity when
the iteration would fail. -/
def applyLog (env : Env) (ledger : Ledger) (log : Log) : Ledger :=
  match env.decodeLog log, env.getTransaction log.transactionHash with
  | Except.ok ev, Except.ok tx =>
      upsert ledger tx.hash ⟨tx.«from», ev.item, ev.quantity, tx.value, tx.hash⟩
  | _, _ => ledger

/-- The console line of one successful iteration (source lines 75-77);
`""` when the iteration would fail (never used in that case). -/
def lineFor (env : Env) (log : Log) : String :=
  match env.decodeLog log, env.getTransaction log.transactionHash with
  | Except.ok ev, Except.ok tx =>
      renderLine tx.hash ev.quantity ev.item tx.«from» tx.value
  | _, _ => ""

/-- The window loop of `indexPastPurchases` (source lines 84-97), started
at cursor `i`: `for (let i = 0; i < latestBlock; i += 500000)` issues the
query range `(fromBlock, toBlock) = (i, i + 500000)`.  This definition
collects the issued `(fromBlock, toBlock)` pairs of a completed scan. -/
def backfillFrom (latestBlock i : Nat) : List (Nat × Nat) :=
  if i < latestBlock then
    (i, i + 500000) :: backfillFrom latestBlock (i + 500000)
  else []
termination_by latestBlock - i
decreasing_by omega

/-- The block windows queried by `indexPastPurchases latestBlock`
(source lines 82-98), loop started at `i = 0`. -/
def backfillWindows (latestBlock : Nat) : List (Nat × Nat) :=
  backfillFrom latestBlock 0

/-- Full model of `indexPastPurchases` (source lines 82-98): per window,
fetch the logs via `getPastLogs` and process them; an error thrown by
`processPurchases` propagates through the `await`, aborting the scan. -/
def indexPastPurchasesFrom (env : Env) (latestBlock i : Nat) (ledger : Ledger) :
    (Ledger × List String) × Option String :=
  if i < latestBlock then
    let fromBlock := i
    let toBlock := fromBlock + 500000
    let step := processPurchases env (env.getPastLogs fromBlock toBlock) ledger
    match step.2 with
    | some e => ((step.1.1, step.1.2), some e)
    | none =>
      let rest := indexPastPurchasesFrom env latestBlock (i + 500000) step.1.1
      ((rest.1.1, step.1.2 ++ rest.1.2), rest.2)
  else ((ledger, []), none)
termination_by latestBlock - i
decreasing_by omega

/-- `indexPastPurchases` (source lines 82-98). -/
def indexPastPurchases (env : Env) (latestBlock : Nat) (ledger : Ledger) :
    (Ledger × List String) × Option String :=
  indexPastPurchasesFrom env latestBlock 0 ledger

/-- Actions the `web3.eth.subscribe("logs", ...)` callback in `start`
can perform (source lines 107-114): throw the delivered error, hand the
new log to `processPurchases`, or issue a new `subscribe` call for a
filter (address, leading topic). -/
inductive HandlerAction where
  | throwErr : String → HandlerAction
  | process : List Log → HandlerAction
  | subscribeLogs : String → String → HandlerAction
deriving DecidableEq

/-- Whether an action establishes a subscription. -/
def HandlerAction.isSubscribe : HandlerAction → Bool
  | HandlerAction.subscribeLogs _ _ => true
  | _ => false

/-- The body of the subscription callback in `start` (source lines
107-114), as the list of actions it performs:
`(err, newPurchase) => { if (err) { throw err; } processPurchases([newPurchase]); }`. -/
def logsHandler (err : Option String) (newPurchase : Log) : List HandlerAction :=
  match err with
  | some e => [HandlerAction.throwErr e]
  | none => [HandlerAction.process [newPurchase]]

/-! ### Concrete demonstration data used by witnesses and counterexamples -/

/-- A demonstration log carrying the expected `ItemPurchased` signature topic. -/
def demoLog1 : Log := ⟨"0xaaa", ["0xsig"], "d1", 1, 0⟩

/-- A second demonstration log with a distinct transaction hash. -/
def demoLog2 : Log := ⟨"0xbbb", ["0xsig"], "d2", 2, 0⟩

/-- A demonstration log whose leading topic is not the event signature. -/
def demoBadLog : Log := ⟨"0xccc", ["0xother"], "d3", 3, 0⟩

/-- A demonstration environment: decoding succeeds exactly on logs whose
leading topic is the signature topic `"0xsig"`; the transaction lookup
knows the hashes `"0xaaa"` (sender `"0xA"`, value 300) and `"0xbbb"`
(sender `"0xB"`, value 500). -/
def demoEnv : Env :=
  ⟨fun lg => if lg.topics.head? = some "0xsig" then Except.ok ⟨"sneakers", 2⟩
             else Except.error "decode error",
   fun h => if h = "0xaaa" then Except.ok ⟨"0xA", 300, h⟩
            else if h = "0xbbb" then Except.ok ⟨"0xB", 500, h⟩
            else Except.error "transaction not found",
   fun _ _ => []⟩

/-- A demonstration environment in which the lookup of `"0xaaa"` fails
(reorged-away hash) while `"0xbbb"` still resolves. -/
def demoEnvPartial : Env :=
  ⟨fun lg => if lg.topics.head? = some "0xsig" then Except.ok ⟨"sneakers", 2⟩
             else Except.error "decode error",
   fun h => if h = "0xbbb" then Except.ok ⟨"0xB", 500, h⟩
            else Except.error "transaction not found",
   fun _ _ => []⟩

/-- A pre-existing receipt used to exercise frame properties. -/
def demoReceiptZ : PurchaseReceipt := ⟨"0xZ", "hat", 1, 77, "0xzzz"⟩

/-- The demonstration environments return hash-consistent transaction
metadata: a successful lookup returns a transaction whose `hash` field
is the queried hash. -/
theorem demoEnv_hash : ∀ h tx, demoEnv.getTransaction h = Except.ok tx → tx.hash = h := by
  intro h tx hx
  unfold demoEnv at hx
  dsimp only at hx
  split at hx
  · cases hx; rfl
  · split at hx
    · cases hx; rfl
    · cases hx

/-! ### Basic lemmas about the ledger and one processing step -/

theorem upsert_self (L : Ledger) (k : String) (r : PurchaseReceipt) :
    upsert L k r k = some r := by
  simp [upsert]

theorem upsert_ne (L : Ledger) (k : String) (r : PurchaseReceipt)
    (k' : String) (h : k' ≠ k) : upsert L k r k' = L k' := by
  simp [upsert, h]

theorem processOne_of_stepOk (env : Env) (ledger : Ledger) (log : Log)
    (h : stepOk env log = true) :
    processOne env ledger log = Except.ok (applyLog env ledger log, lineFor env log) := by
  unfold stepOk at h
  unfold processOne applyLog lineFor
  cases hd : env.decodeLog log with
  | error e => rw [hd] at h; simp at h
  | ok ev =>
    cases ht : env.getTransaction log.transactionHash with
    | error e => rw [hd, ht] at h; simp at h
    | ok tx => rfl

theorem processOne_err_of_not_stepOk (env : Env) (ledger : Ledger) (log : Log)
    (h : stepOk env log = false) :
    ∃ e, processOne env ledger log = Except.error e := by
  unfold stepOk at h
  unfold processOne
  cases hd : env.decodeLog log with
  | error e => exact ⟨e, rfl⟩
  | ok ev =>
    cases ht : env.getTransaction log.transactionHash with
    | error e => exact ⟨e, rfl⟩
    | ok tx => rw [hd, ht] at h; simp at h

theorem receiptFor_of_stepOk (env : Env) (log : Log)
    (h : stepOk env log = true) : ∃ r, receiptFor env log = some r := by
  unfold stepOk at h
  unfold receiptFor
  cases hd : env.decodeLog log with
  | error e => rw [hd] at h; simp at h
  | ok ev =>
    cases ht : env.getTransaction log.transactionHash with
    | error e => rw [hd, ht] at h; simp at h
    | ok tx => exact ⟨_, rfl⟩

theorem keyFor_of_stepOk (env : Env) (log : Log)
    (hok : stepOk env log = true)
    (henv : ∀ h tx, env.getTransaction h = Except.ok tx → tx.hash = h) :
    keyFor env log = some log.transactionHash := by
  unfold stepOk at hok
  unfold keyFor
  cases hd : env.decodeLog log with
  | error e => rw [hd] at hok; simp at hok
  | ok ev =>
    cases ht : env.getTransaction log.transactionHash with
    | error e => rw [hd, ht] at hok; simp at hok
    | ok tx => exact congrArg some (henv log.transactionHash tx ht)

theorem applyLog_apply_ne (env : Env) (L : Ledger) (log : Log) (k : String)
    (hk : keyFor env log ≠ some k) : applyLog env L log k = L k := by
  unfold keyFor at hk
  unfold applyLog
  cases hd : env.decodeLog log with
  | error e => rfl
  | ok ev =>
    cases ht : env.getTransaction log.transactionHash with
    | error e => rfl
    | ok tx =>
      rw [ht] at hk
      have hne : k ≠ tx.hash := by
        intro hkk
        exact hk (by rw [hkk])
      exact upsert_ne L tx.hash _ k hne

theorem applyLog_self (env : Env) (L : Ledger) (log : Log)
    (hok : stepOk env log = true)
    (henv : ∀ h tx, env.getTransaction h = Except.ok tx → tx.hash = h) :
    applyLog env L log log.transactionHash = receiptFor env log := by
  unfold stepOk at hok
  unfold applyLog receiptFor
  cases hd : env.decodeLog log with
  | error e => rw [hd] at hok; simp at hok
  | ok ev =>
    cases ht : env.getTransaction log.transactionHash with
    | error e => rw [hd, ht] at hok; simp at hok
    | ok tx =>
      have hh : tx.hash = log.transactionHash := henv log.transactionHash tx ht
      simp [upsert, hh]

theorem applyLog_some_or_same (env : Env) (L : Ledger) (log : Log) (k : String) :
    applyLog env L log k = L k ∨ ∃ r, applyLog env L log k = some r := by
  unfold applyLog
  cases hd : env.decodeLog log with
  | error e => exact Or.inl rfl
  | ok ev =>
    cases ht : env.getTransaction log.transactionHash with
    | error e => exact Or.inl rfl
    | ok tx =>
      by_cases hk : k = tx.hash
      · subst hk
        exact Or.inr ⟨_, upsert_self L _ _⟩
      · exact Or.inl (upsert_ne L tx.hash _ k hk)

/-! ### Characterisation of `processPurchases` -/

theorem processPurchases_ledger (env : Env) (logs : List Log) (ledger : Ledger) :
    (processPurchases env logs ledger).1.1 =
      (logs.takeWhile (stepOk env)).foldl (applyLog env) ledger := by
  induction logs generalizing ledger with
  | nil => rfl
  | cons log rest ih =>
    by_cases hs : stepOk env log = true
    · rw [List.takeWhile_cons_of_pos hs, List.foldl_cons]
      unfold processPurchases
      rw [processOne_of_stepOk env ledger log hs]
      exact ih (applyLog env ledger log)
    · obtain ⟨e, he⟩ := processOne_err_of_not_stepOk env ledger log (by
        cases h2 : stepOk env log
        · rfl
        · exact absurd h2 hs)
      rw [List.takeWhile_cons_of_neg (by simpa using hs)]
      unfold processPurchases
      rw [he]
      rfl

theorem processPurchases_lines (env : Env) (logs : List Log) (ledger : Ledger) :
    (processPurchases env logs ledger).1.2 =
      (logs.takeWhile (stepOk env)).map (lineFor env) := by
  induction logs generalizing ledger with
  | nil => rfl
  | cons log rest ih =>
    by_cases hs : stepOk env log = true
    · rw [List.takeWhile_cons_of_pos hs, List.map_cons]
      unfold processPurchases
      rw [processOne_of_stepOk env ledger log hs]
      simp only
      rw [ih (applyLog env ledger log)]
    · obtain ⟨e, he⟩ := processOne_err_of_not_stepOk env ledger log (by
        cases h2 : stepOk env log
        · rfl
        · exact absurd h2 hs)
      rw [List.takeWhile_cons_of_neg (by simpa using hs)]
      unfold processPurchases
      rw [he]
      rfl

theorem foldl_applyLog_frame (env : Env) :
    ∀ (seq : List Log) (init : Ledger) (k : String),
      (∀ l ∈ seq, keyFor env l ≠ some k) →
      (seq.foldl (applyLog env) init) k = init k := by
  intro seq
  induction seq with
  | nil => intro init k _; rfl
  | cons a seq ih =>
    intro init k h
    rw [List.foldl_cons]
    rw [ih (applyLog env init a) k (fun l hl => h l (List.mem_cons_of_mem a hl))]
    exact applyLog_apply_ne env init a k (h a (List.mem_cons_self a seq))

theorem foldl_applyLog_some (env : Env) :
    ∀ (seq : List Log) (init : Ledger) (k : String) (r : PurchaseReceipt),
      init k = some r → ∃ r', (seq.foldl (applyLog env) init) k = some r' := by
  intro seq
  induction seq with
  | nil => intro init k r h; exact ⟨r, h⟩
  | cons a seq ih =>
    intro init k r h
    rw [List.foldl_cons]
    rcases applyLog_some_or_same env init a k with hsame | ⟨r', hr'⟩
    · exact ih (applyLog env init a) k r (by rw [hsame]; exact h)
    · exact ih (applyLog env init a) k r' hr'

theorem mem_of_mem_takeWhile {p : Log → Bool} :
    ∀ {l : List Log} {a : Log}, a ∈ l.takeWhile p → a ∈ l := by
  intro l
  induction l with
  | nil => intro a h; simp [List.takeWhile] at h
  | cons x xs ih =>
    intro a h
    by_cases hx : p x = true
    · rw [List.takeWhile_cons_of_pos hx] at h
      rcases List.mem_cons.mp h with h1 | h'
      · rw [h1]; exact List.mem_cons_self x xs
      · exact List.mem_cons_of_mem x (ih h')
    · rw [List.takeWhile_cons_of_neg (by simpa using hx)] at h
      simp at h

theorem stepOk_of_mem_takeWhile (env : Env) :
    ∀ {l : List Log} {a : Log}, a ∈ l.takeWhile (stepOk env) → stepOk env a = true := by
  intro l
  induction l with
  | nil => intro a h; simp [List.takeWhile] at h
  | cons x xs ih =>
    intro a h
    by_cases hx : stepOk env x = true
    · rw [List.takeWhile_cons_of_pos hx] at h
      rcases List.mem_cons.mp h with h1 | h'
      · rw [h1]; exact hx
      · exact ih h'
    · rw [List.takeWhile_cons_of_neg (by simpa using hx)] at h
      simp at h

theorem takeWhile_all {p : Log → Bool} :
    ∀ (l : List Log), (∀ x ∈ l, p x = true) → l.takeWhile p = l := by
  intro l
  induction l with
  | nil => intro _; rfl
  | cons x xs ih =>
    intro h
    rw [List.takeWhile_cons_of_pos (h x (List.mem_cons_self x xs))]
    rw [ih (fun y hy => h y (List.mem_cons_of_mem x hy))]

/-! ### Characterisation of the backfill windows -/

theorem backfillFrom_eq (H : Nat) :
    ∀ (m k : Nat), (H + 499999) / 500000 ≤ k + m →
      backfillFrom H (k * 500000) =
        (List.range' k ((H + 499999) / 500000 - k)).map
          (fun j => (j * 500000, j * 500000 + 500000)) := by
  intro m
  induction m with
  | zero =>
    intro k hk
    have h1 : ¬ (k * 500000 < H) := by omega
    have h2 : (H + 499999) / 500000 - k = 0 := by omega
    rw [backfillFrom, if_neg h1, h2]
    rfl
  | succ m ih =>
    intro k hk
    by_cases h1 : k * 500000 < H
    · have hk2 : k < (H + 499999) / 500000 := by omega
      have h3 : (H + 499999) / 500000 - k = ((H + 499999) / 500000 - (k + 1)) + 1 := by
        omega
      rw [backfillFrom, if_pos h1, h3, List.range'_succ, List.map_cons]
      have h4 : k * 500000 + 500000 = (k + 1) * 500000 := by ring
      rw [h4, ih (k + 1) (by omega)]
    · have h2 : (H + 499999) / 500000 - k = 0 := by omega
      rw [backfillFrom, if_neg h1, h2]
      rfl

theorem backfillWindows_eq (H : Nat) :
    backfillWindows H =
      (List.range ((H + 499999) / 500000)).map
        (fun j => (j * 500000, j * 500000 + 500000)) := by
  have h := backfillFrom_eq H ((H + 499999) / 500000) 0 (by omega)
  rw [List.range_eq_range']
  simpa [backfillWindows] using h

/-! ### Claim C1 -/

/-- Claim C1 counterexample: for H = 1,200,000 the backfill scan issues the
windows `(0, 500000)`, `(500000, 1000000)`, `(1000000, 1500000)` — the last
window is `toBlock = fromBlock + 500000` without clamping, so it is not the
claimed `(1000000, 1200000)` and it extends past H. -/
theorem c1_backfill_counterexample :
    backfillWindows 1200000 = [(0, 500000), (500000, 1000000), (1000000, 1500000)]
  ∧ backfillWindows 1200000 ≠ [(0, 500000), (500000, 1000000), (1000000, 1200000)]
  ∧ 1200000 < 1500000 := by
  rw [backfillWindows_eq]
  refine ⟨by decide, by decide, by decide⟩

/-- Claim C1, amended: for every upper bound H and window size W = 500,000 the
backfill scan issues exactly `ceil(H/W)` windows (zero for H = 0).  Every
window has width exactly W (`toBlock = fromBlock + W`); read as half-open
ranges `[fromBlock, toBlock)` the windows are pairwise non-overlapping (each
ends no later than the next begins) and every height below H is covered, but
the last window may extend past H, up to `ceil(H/W)·W`. -/
theorem c1_backfill_windows_amended (H : Nat) :
    (backfillWindows H).length = (H + 499999) / 500000
  ∧ (H = 0 → backfillWindows H = [])
  ∧ List.Pairwise (fun w1 w2 => w1.2 ≤ w2.1) (backfillWindows H)
  ∧ (∀ w ∈ backfillWindows H, w.2 = w.1 + 500000
        ∧ w.2 ≤ ((H + 499999) / 500000) * 500000)
  ∧ (∀ h, h < H → ∃ w ∈ backfillWindows H, w.1 ≤ h ∧ h < w.2) := by
  refine ⟨?_, ?_, ?_, ?_, ?_⟩
  · rw [backfillWindows_eq, List.length_map, List.length_range]
  · intro h0
    subst h0
    rw [backfillWindows_eq]
    decide
  · rw [backfillWindows_eq, List.pairwise_map]
    exact (List.pairwise_lt_range _).imp (by intro a b hab; simp only; omega)
  · intro w hw
    rw [backfillWindows_eq] at hw
    rcases List.mem_map.mp hw with ⟨j, hj, rfl⟩
    have hj' := List.mem_range.mp hj
    exact ⟨rfl, by simp only; omega⟩
  · intro h hh
    refine ⟨(h / 500000 * 500000, h / 500000 * 500000 + 500000), ?_, ?_, ?_⟩
    · rw [backfillWindows_eq]
      exact List.mem_map.mpr ⟨h / 500000, List.mem_range.mpr (by omega), rfl⟩
    · omega
    · omega

/-- Claim C1 witness: for H = 1,200,000 the amended statement yields exactly
three issued windows. -/
theorem c1_backfill_witness : (backfillWindows 1200000).length = 3 := by
  have h := (c1_backfill_windows_amended 1200000).1
  rw [h]

/-! ### Deduplication across arbitrary interleavings -/

/-- A run of the indexer as a sequence of delivered batches (backfill
windows and live single-log deliveries, in any interleaving): each batch
goes through `processPurchases`, threading the shared ledger. -/
def runBatches (env : Env) (batches : List (List Log)) (ledger : Ledger) : Ledger :=
  batches.foldl (fun acc b => (processPurchases env b acc).1.1) ledger

theorem pairwise_hash_ne (S : List Log)
    (hdist : S.Pairwise (fun l1 l2 => l1.transactionHash ≠ l2.transactionHash)) :
    ∀ a ∈ S, ∀ b ∈ S, a ≠ b → a.transactionHash ≠ b.transactionHash := by
  induction S with
  | nil => simp
  | cons x xs ih =>
    intro a ha b hb hne
    rcases List.pairwise_cons.mp hdist with ⟨hx, hxs⟩
    rcases List.mem_cons.mp ha with h1 | ha'
    · rcases List.mem_cons.mp hb with h2 | hb'
      · rw [h1, h2] at hne; exact absurd rfl hne
      · rw [h1]; exact hx b hb'
    · rcases List.mem_cons.mp hb with h2 | hb'
      · rw [h2]; exact fun hh => (hx a ha') hh.symm
      · exact ih hxs a ha' b hb' hne

theorem foldl_applyLog_mem (env : Env) (S : List Log)
    (henv : ∀ h tx, env.getTransaction h = Except.ok tx → tx.hash = h)
    (hok : ∀ l ∈ S, stepOk env l = true)
    (hdist : S.Pairwise (fun l1 l2 => l1.transactionHash ≠ l2.transactionHash)) :
    ∀ (seq : List Log) (init : Ledger), (∀ l ∈ seq, l ∈ S) →
      ∀ l, l ∈ S → l ∈ seq →
        (seq.foldl (applyLog env) init) l.transactionHash = receiptFor env l := by
  intro seq
  induction seq with
  | nil => intro init _ l _ h; simp at h
  | cons a seq ih =>
    intro init hsub l hlS hlseq
    have haS : a ∈ S := hsub a (List.mem_cons_self a seq)
    rw [List.foldl_cons]
    by_cases hmem : l ∈ seq
    · exact ih (applyLog env init a)
        (fun x hx => hsub x (List.mem_cons_of_mem a hx)) l hlS hmem
    · have hla : l = a := by
        rcases List.mem_cons.mp hlseq with h | h
        · exact h
        · exact absurd h hmem
      subst hla
      have hframe : ∀ m ∈ seq, keyFor env m ≠ some l.transactionHash := by
        intro m hm hkm
        have hmS : m ∈ S := hsub m (List.mem_cons_of_mem l hm)
        have hkm' : keyFor env m = some m.transactionHash :=
          keyFor_of_stepOk env m (hok m hmS) henv
        rw [hkm'] at hkm
        have heq : m.transactionHash = l.transactionHash := Option.some.inj hkm
        have hne : m ≠ l := fun hes => hmem (hes ▸ hm)
        exact pairwise_hash_ne S hdist m hmS l hlS hne heq
      rw [foldl_applyLog_frame env seq (applyLog env init l) l.transactionHash hframe]
      exact applyLog_self env init l (hok l hlS) henv

theorem runBatches_eq_join (env : Env) (batches : List (List Log)) :
    ∀ (ledger : Ledger), (∀ l ∈ batches.flatten, stepOk env l = true) →
      runBatches env batches ledger = (batches.flatten).foldl (applyLog env) ledger := by
  induction batches with
  | nil => intro ledger _; rfl
  | cons b bs ih =>
    intro ledger hok
    have hb : ∀ l ∈ b, stepOk env l = true := by
      intro l hl
      exact hok l (by rw [List.flatten_cons]; exact List.mem_append_left _ hl)
    have hbs : ∀ l ∈ bs.flatten, stepOk env l = true := by
      intro l hl
      exact hok l (by rw [List.flatten_cons]; exact List.mem_append_right _ hl)
    have h1 : runBatches env (b :: bs) ledger =
        runBatches env bs ((processPurchases env b ledger).1.1) := rfl
    rw [h1, ih ((processPurchases env b ledger).1.1) hbs,
      processPurchases_ledger env b ledger, takeWhile_all b hb,
      List.flatten_cons, List.foldl_append]

/-! ### Claim C2 -/

/-- Claim C2: for any finite set `S` of purchase logs with pairwise distinct
transaction hashes, all of which process successfully, delivering them in any
interleaving of batches, in any order and any number of times (duplicates
allowed), leaves the ledger with exactly one entry per distinct hash — the
entry at each hash is the receipt of that log, identical to the entry left by
a single delivery, and no other key is populated. -/
theorem c2_ledger_dedup_idempotent (env : Env) (S : List Log)
    (batches : List (List Log))
    (henv : ∀ h tx, env.getTransaction h = Except.ok tx → tx.hash = h)
    (hok : ∀ l ∈ S, stepOk env l = true)
    (hdist : S.Pairwise (fun l1 l2 => l1.transactionHash ≠ l2.transactionHash))
    (hsub : ∀ l ∈ batches.flatten, l ∈ S)
    (hcov : ∀ l ∈ S, l ∈ batches.flatten) :
    (∀ l ∈ S, ∃ r, receiptFor env l = some r
        ∧ runBatches env batches emptyLedger l.transactionHash = some r
        ∧ (processPurchases env [l] emptyLedger).1.1 l.transactionHash = some r)
  ∧ (∀ k, (∀ l ∈ S, l.transactionHash ≠ k) →
        runBatches env batches emptyLedger k = none) := by
  have hokj : ∀ l ∈ batches.flatten, stepOk env l = true :=
    fun l hl => hok l (hsub l hl)
  have hrun := runBatches_eq_join env batches emptyLedger hokj
  constructor
  · intro l hlS
    obtain ⟨r, hr⟩ := receiptFor_of_stepOk env l (hok l hlS)
    refine ⟨r, hr, ?_, ?_⟩
    · rw [hrun, foldl_applyLog_mem env S henv hok hdist batches.flatten emptyLedger
        hsub l hlS (hcov l hlS), hr]
    · have hsingle : (processPurchases env [l] emptyLedger).1.1 =
          applyLog env emptyLedger l := by
        rw [processPurchases_ledger env [l] emptyLedger,
          List.takeWhile_cons_of_pos (hok l hlS)]
        rfl
      rw [hsingle, applyLog_self env emptyLedger l (hok l hlS) henv, hr]
  · intro k hk
    rw [hrun, foldl_applyLog_frame env batches.flatten emptyLedger k ?_]
    · rfl
    · intro l hl hkl
      have hlS := hsub l hl
      rw [keyFor_of_stepOk env l (hok l hlS) henv] at hkl
      exact hk l hlS (Option.some.inj hkl)

/-- Claim C2 witness: delivering `demoLog1`/`demoLog2` shuffled and duplicated
across four batches leaves exactly the single-delivery entry under `"0xaaa"`
and nothing under an untouched key. -/
theorem c2_witness :
    runBatches demoEnv [[demoLog2], [demoLog1, demoLog2], [demoLog1], [demoLog1]]
        emptyLedger "0xaaa" = some ⟨"0xA", "sneakers", 2, 300, "0xaaa"⟩
  ∧ (processPurchases demoEnv [demoLog1] emptyLedger).1.1 "0xaaa"
      = some ⟨"0xA", "sneakers", 2, 300, "0xaaa"⟩
  ∧ runBatches demoEnv [[demoLog2], [demoLog1, demoLog2], [demoLog1], [demoLog1]]
        emptyLedger "0xccc" = none := by
  have h := c2_ledger_dedup_idempotent demoEnv [demoLog1, demoLog2]
    [[demoLog2], [demoLog1, demoLog2], [demoLog1], [demoLog1]]
    demoEnv_hash (by decide) (by decide) (by decide) (by decide)
  obtain ⟨r, hr, h1, h2⟩ := h.1 demoLog1 (by decide)
  have hrv : r = ⟨"0xA", "sneakers", 2, 300, "0xaaa"⟩ := by
    have hc : receiptFor demoEnv demoLog1 =
        some ⟨"0xA", "sneakers", 2, 300, "0xaaa"⟩ := by decide
    rw [hc] at hr
    exact (Option.some.inj hr).symm
  rw [hrv] at h1 h2
  exact ⟨h1, h2, h.2 "0xccc" (by decide)⟩

/-! ### Claim C3 -/

theorem processOne_txErr (env : Env) (ledger : Ledger) (log : Log)
    (ev : PurchaseEvent) (e : String)
    (hev : env.decodeLog log = Except.ok ev)
    (he : env.getTransaction log.transactionHash = Except.error e) :
    processOne env ledger log = Except.error e := by
  unfold processOne
  rw [hev, he]

/-- Claim C3 counterexample: in `demoEnvPartial` the metadata lookup for
`demoLog1` fails while `demoLog2` alone processes fine; delivering the batch
`[demoLog1, demoLog2]` propagates the error and leaves `demoLog2`
unprocessed — the failure does prevent the loop from processing the other
logs of the batch. -/
theorem c3_counterexample :
    (processPurchases demoEnvPartial [demoLog1, demoLog2] emptyLedger).2
      = some "transaction not found"
  ∧ (processPurchases demoEnvPartial [demoLog1, demoLog2] emptyLedger).1.1 "0xbbb"
      = none
  ∧ (processPurchases demoEnvPartial [demoLog2] emptyLedger).1.1 "0xbbb"
      = some ⟨"0xB", "sneakers", 2, 500, "0xbbb"⟩ := by
  decide

/-- Claim C3, amended: when the transaction-metadata lookup for a log fails,
the failure is propagated and aborts that log's processing without inserting
a receipt for it; logs processed earlier in the same batch keep their ledger
entries and emitted lines, but the remaining logs of the batch are not
processed — the thrown error ends the loop. -/
theorem c3_metadata_failure_amended (env : Env) (pre : List Log) (log : Log)
    (rest : List Log) (ledger : Ledger) (e : String)
    (hpre : ∀ l ∈ pre, stepOk env l = true)
    (hev : ∃ ev, env.decodeLog log = Except.ok ev)
    (he : env.getTransaction log.transactionHash = Except.error e) :
    processPurchases env (pre ++ log :: rest) ledger
      = ((pre.foldl (applyLog env) ledger, pre.map (lineFor env)), some e) := by
  revert hpre
  induction pre generalizing ledger with
  | nil =>
    intro _
    obtain ⟨ev, hev⟩ := hev
    simp only [List.nil_append, List.foldl_nil, List.map_nil]
    unfold processPurchases
    rw [processOne_txErr env ledger log ev e hev he]
  | cons p ps ih =>
    intro hpre
    have hp : stepOk env p = true := hpre p (List.mem_cons_self p ps)
    rw [List.cons_append]
    unfold processPurchases
    rw [processOne_of_stepOk env ledger p hp]
    simp only
    rw [ih (applyLog env ledger p) (fun l hl => hpre l (List.mem_cons_of_mem p hl)),
      List.foldl_cons, List.map_cons]

/-- Claim C3 witness: with `demoLog2` processed before the failing
`demoLog1`, the error propagates, `demoLog2`'s receipt survives, and the
trailing copy of `demoLog2` is not processed. -/
theorem c3_witness :
    (processPurchases demoEnvPartial [demoLog2, demoLog1, demoLog2] emptyLedger).2
      = some "transaction not found"
  ∧ (processPurchases demoEnvPartial [demoLog2, demoLog1, demoLog2] emptyLedger).1.1
      "0xbbb" = some ⟨"0xB", "sneakers", 2, 500, "0xbbb"⟩ := by
  have h := c3_metadata_failure_amended demoEnvPartial [demoLog2] demoLog1 [demoLog2]
    emptyLedger "transaction not found" (by decide) ⟨⟨"sneakers", 2⟩, rfl⟩ rfl
  simp only [List.cons_append, List.nil_append] at h
  constructor
  · rw [h]
  · rw [h]
    decide

/-! ### Claim C4 -/

/-- Claim C4 counterexample: when the subscription delivers a transport
error, the callback in `start` performs exactly one action — rethrowing the
error — and establishes no new subscription (for any filter): the claimed
resubscription with the same filter does not happen. -/
theorem c4_counterexample :
    logsHandler (some "connection lost") demoLog1
      = [HandlerAction.throwErr "connection lost"]
  ∧ (logsHandler (some "connection lost") demoLog1).all
      (fun a => ! a.isSubscribe) = true := by
  decide

/-- Claim C4, amended: when the live subscription terminates with a transport
error, the error is surfaced — the callback throws it — but no new
subscription is issued by the subscriber; the callback's only action is the
throw, so resubscription is not performed by this code. -/
theorem c4_transport_error_amended (e : String) (lg : Log) :
    logsHandler (some e) lg = [HandlerAction.throwErr e]
  ∧ (logsHandler (some e) lg).all (fun a => ! a.isSubscribe) = true := by
  exact ⟨rfl, rfl⟩

/-- Claim C4 witness: the amended statement at a concrete transport error. -/
theorem c4_witness :
    logsHandler (some "socket hang up") demoLog2
      = [HandlerAction.throwErr "socket hang up"] :=
  (c4_transport_error_amended "socket hang up" demoLog2).1

/-! ### Claim C5 -/

/-- Claim C5: under the decoder contract of the spec — a log whose leading
topic differs from the event signature topic fails to decode — processing a
batch headed by such a log fails with the decode error, which is propagated
(the batch result carries it; it is not skipped), and no receipt is inserted:
the ledger is returned unchanged. -/
theorem c5_decode_error_propagated (env : Env) (sigTopic : String) (log : Log)
    (rest : List Log) (ledger : Ledger)
    (hdec : ∀ lg : Log, lg.topics.head? ≠ some sigTopic →
        ∃ e, env.decodeLog lg = Except.error e)
    (hmis : log.topics.head? ≠ some sigTopic) :
    ∃ e, env.decodeLog log = Except.error e
      ∧ processOne env ledger log = Except.error e
      ∧ processPurchases env (log :: rest) ledger = ((ledger, []), some e) := by
  obtain ⟨e, he⟩ := hdec log hmis
  have h1 : processOne env ledger log = Except.error e := by
    unfold processOne
    rw [he]
  refine ⟨e, he, h1, ?_⟩
  unfold processPurchases
  rw [h1]

/-- Claim C5 witness: in `demoEnv` the mismatching `demoBadLog` fails to
decode, the error propagates out of the batch, and the ledger stays empty at
the log's hash. -/
theorem c5_witness :
    (processPurchases demoEnv [demoBadLog] emptyLedger).2 = some "decode error"
  ∧ (processPurchases demoEnv [demoBadLog] emptyLedger).1.1 "0xccc" = none := by
  have h := c5_decode_error_propagated demoEnv "0xsig" demoBadLog [] emptyLedger
    (fun lg hlg => ⟨"decode error", by
      have : demoEnv.decodeLog lg =
          if lg.topics.head? = some "0xsig" then Except.ok ⟨"sneakers", 2⟩
          else Except.error "decode error" := rfl
      rw [this, if_neg hlg]⟩)
    (by decide)
  obtain ⟨e, he, h1, h2⟩ := h
  have hev : e = "decode error" := by
    have hc : demoEnv.decodeLog demoBadLog = Except.error "decode error" := rfl
    rw [hc] at he
    exact (Except.error.inj he).symm
  rw [hev] at h2
  rw [h2]
  exact ⟨rfl, rfl⟩

/-! ### Claim C6 -/

/-- Claim C6: processing one log is all-or-nothing for the ledger — either
the receipt is fully assembled (all five fields, as `receiptFor`) and
upserted under its transaction id, leaving every other key untouched, or an
error occurs and the batch leaves the ledger exactly as it was; no partially
assembled entry is ever stored and no existing entry is corrupted. -/
theorem c6_atomic_upsert (env : Env) (ledger : Ledger) (log : Log)
    (rest : List Log) :
    (∃ r line, receiptFor env log = some r
      ∧ processOne env ledger log
          = Except.ok (upsert ledger r.transactionId r, line)
      ∧ (∀ k, k ≠ r.transactionId → upsert ledger r.transactionId r k = ledger k))
  ∨ (∃ e, processOne env ledger log = Except.error e
      ∧ (processPurchases env (log :: rest) ledger).1.1 = ledger
      ∧ (processPurchases env (log :: rest) ledger).2 = some e) := by
  cases hd : env.decodeLog log with
  | error e =>
    refine Or.inr ⟨e, ?_, ?_, ?_⟩
    · unfold processOne; rw [hd]
    · unfold processPurchases processOne; rw [hd]
    · unfold processPurchases processOne; rw [hd]
  | ok ev =>
    cases ht : env.getTransaction log.transactionHash with
    | error e =>
      have h1 : processOne env ledger log = Except.error e :=
        processOne_txErr env ledger log ev e hd ht
      refine Or.inr ⟨e, h1, ?_, ?_⟩
      · unfold processPurchases; rw [h1]
      · unfold processPurchases; rw [h1]
    | ok tx =>
      refine Or.inl ⟨⟨tx.«from», ev.item, ev.quantity, tx.value, tx.hash⟩,
        renderLine tx.hash ev.quantity ev.item tx.«from» tx.value, ?_, ?_, ?_⟩
      · unfold receiptFor; rw [hd, ht]
      · unfold processOne; rw [hd, ht]
      · intro k hk
        exact upsert_ne ledger tx.hash _ k hk

/-- Claim C6 witness: processing the failing `demoLog1` under
`demoEnvPartial` leaves the (empty) ledger unchanged at its hash. -/
theorem c6_witness :
    (processPurchases demoEnvPartial [demoLog1] emptyLedger).1.1 "0xaaa" = none := by
  rcases c6_atomic_upsert demoEnvPartial emptyLedger demoLog1 [] with
    ⟨r, line, hr, _, _⟩ | ⟨e, _, h2, _⟩
  · have hc : receiptFor demoEnvPartial demoLog1 = none := rfl
    rw [hc] at hr
    cases hr
  · rw [h2]
    rfl

/-! ### Claim C7 -/

/-- Claim C7: for every successfully processed purchase log, the assembled
and stored receipt is built field-by-field from the decoded event and the
transaction metadata — in particular `total` equals the transaction's
attached `value` (it is taken from `getTransaction`, the only data source in
scope; no price table exists in the indexer to recompute it from). -/
theorem c7_total_is_tx_value (env : Env) (ledger : Ledger) (log : Log)
    (ev : PurchaseEvent) (tx : TxMeta)
    (hdec : env.decodeLog log = Except.ok ev)
    (htx : env.getTransaction log.transactionHash = Except.ok tx) :
    receiptFor env log = some ⟨tx.«from», ev.item, ev.quantity, tx.value, tx.hash⟩
  ∧ (∀ r, receiptFor env log = some r → r.total = tx.value ∧ r.«from» = tx.«from»
        ∧ r.item = ev.item ∧ r.quantity = ev.quantity ∧ r.transactionId = tx.hash)
  ∧ (processPurchases env [log] ledger).1.1 tx.hash
      = some ⟨tx.«from», ev.item, ev.quantity, tx.value, tx.hash⟩ := by
  have h1 : receiptFor env log
      = some ⟨tx.«from», ev.item, ev.quantity, tx.value, tx.hash⟩ := by
    unfold receiptFor
    rw [hdec, htx]
  refine ⟨h1, ?_, ?_⟩
  · intro r hr
    rw [h1] at hr
    have hinj := Option.some.inj hr
    rw [← hinj]
    exact ⟨rfl, rfl, rfl, rfl, rfl⟩
  · have hst : stepOk env log = true := by
      unfold stepOk
      rw [hdec, htx]
    rw [processPurchases_ledger env [log] ledger, List.takeWhile_cons_of_pos hst]
    have h2 : (log :: List.takeWhile (stepOk env) []).foldl (applyLog env) ledger
        = applyLog env ledger log := rfl
    rw [h2]
    unfold applyLog
    rw [hdec, htx]
    exact upsert_self ledger tx.hash _

/-- Claim C7 witness: a transaction from `"0xA"` with attached value 300
emitting `ItemPurchased("sneakers", 2)` yields the ledger entry
`{from: "0xA", item: "sneakers", quantity: 2, total: 300, transactionId: "0xaaa"}`. -/
theorem c7_witness :
    (processPurchases demoEnv [demoLog1] emptyLedger).1.1 "0xaaa"
      = some ⟨"0xA", "sneakers", 2, 300, "0xaaa"⟩ := by
  have h := c7_total_is_tx_value demoEnv emptyLedger demoLog1 ⟨"sneakers", 2⟩
    ⟨"0xA", 300, "0xaaa"⟩ rfl rfl
  exact h.2.2

/-! ### Claim C8 -/

/-- Claim C8: the emitted console lines are exactly one per successfully
processed (hence upserted) log, in processing order — none for a failing
log — and each line has the form
`[<transactionId>] <quantity> of "<item>" were purchased by <from> for <total> wei`,
with every placeholder taken from the stored receipt. -/
theorem c8_observability_lines (env : Env) (logs : List Log) (ledger : Ledger) :
    (processPurchases env logs ledger).1.2
      = (logs.takeWhile (stepOk env)).map (lineFor env)
  ∧ ∀ l ∈ logs.takeWhile (stepOk env), ∃ r, receiptFor env l = some r
      ∧ lineFor env l = "[" ++ r.transactionId ++ "] " ++ toString r.quantity
          ++ " of \"" ++ r.item ++ "\" were purchased by " ++ r.«from» ++ " for "
          ++ toString r.total ++ " wei" := by
  refine ⟨processPurchases_lines env logs ledger, ?_⟩
  intro l hl
  have hst := stepOk_of_mem_takeWhile env hl
  unfold stepOk at hst
  cases hd : env.decodeLog l with
  | error e => rw [hd] at hst; simp at hst
  | ok ev =>
    cases ht : env.getTransaction l.transactionHash with
    | error e => rw [hd, ht] at hst; simp at hst
    | ok tx =>
      refine ⟨⟨tx.«from», ev.item, ev.quantity, tx.value, tx.hash⟩, ?_, ?_⟩
      · unfold receiptFor
        rw [hd, ht]
      · unfold lineFor
        rw [hd, ht]
        rfl

/-- Claim C8 witness: the single successful demonstration log emits exactly
its one formatted line. -/
theorem c8_witness :
    (processPurchases demoEnv [demoLog1] emptyLedger).1.2
      = ["[0xaaa] 2 of \"sneakers\" were purchased by 0xA for 300 wei"] := by
  have h := (c8_observability_lines demoEnv [demoLog1] emptyLedger).1
  rw [h]
  decide

/-! ### Claim C9 -/

theorem foldl_applyLog_origin (env : Env) :
    ∀ (seq : List Log) (init : Ledger) (k : String) (r : PurchaseReceipt),
      (seq.foldl (applyLog env) init) k = some r →
      init k = some r
      ∨ ∃ l ∈ seq, ∃ tx, env.getTransaction l.transactionHash = Except.ok tx
          ∧ tx.hash = k ∧ receiptFor env l = some r := by
  intro seq
  induction seq with
  | nil => intro init k r h; exact Or.inl h
  | cons a seq ih =>
    intro init k r h
    rw [List.foldl_cons] at h
    rcases ih (applyLog env init a) k r h with h1 | ⟨l, hl, tx, htx, hhash, hrf⟩
    · revert h1
      unfold applyLog
      cases hd : env.decodeLog a with
      | error e => intro h1; exact Or.inl h1
      | ok ev =>
        cases ht : env.getTransaction a.transactionHash with
        | error e => intro h1; exact Or.inl h1
        | ok tx =>
          intro h1
          have h1' : upsert init tx.hash
              ⟨tx.«from», ev.item, ev.quantity, tx.value, tx.hash⟩ k = some r := h1
          by_cases hk : k = tx.hash
          · right
            rw [hk, upsert_self init tx.hash _] at h1'
            refine ⟨a, List.mem_cons_self a seq, tx, ht, hk.symm, ?_⟩
            unfold receiptFor
            rw [hd, ht]
            exact h1'
          · rw [upsert_ne init tx.hash _ k hk] at h1'
            exact Or.inl h1'
    · exact Or.inr ⟨l, List.mem_cons_of_mem a hl, tx, htx, hhash, hrf⟩

/-- Claim C9: invariant kept by processing — every key present in the ledger
afterwards maps to a receipt whose `transactionId` equals that key, and the
key either carried the same receipt before or is the `hash` returned by the
transaction-metadata lookup used to assemble the receipt of one of the
processed logs. -/
theorem c9_key_invariant (env : Env) (logs : List Log) (ledger : Ledger)
    (hinv : ∀ k r, ledger k = some r → r.transactionId = k) :
    ∀ k r, (processPurchases env logs ledger).1.1 k = some r →
      r.transactionId = k
      ∧ (ledger k = some r
          ∨ ∃ l ∈ logs, ∃ tx, env.getTransaction l.transactionHash = Except.ok tx
              ∧ tx.hash = k ∧ receiptFor env l = some r) := by
  intro k r h
  rw [processPurchases_ledger] at h
  rcases foldl_applyLog_origin env (logs.takeWhile (stepOk env)) ledger k r h with
    h1 | ⟨l, hl, tx, htx, hhash, hrf⟩
  · exact ⟨hinv k r h1, Or.inl h1⟩
  · refine ⟨?_, Or.inr ⟨l, mem_of_mem_takeWhile hl, tx, htx, hhash, hrf⟩⟩
    unfold receiptFor at hrf
    cases hd : env.decodeLog l with
    | error e => rw [hd, htx] at hrf; simp at hrf
    | ok ev =>
      rw [hd, htx] at hrf
      have hinj := Option.some.inj hrf
      rw [← hinj]
      exact hhash

/-- Claim C9 witness: the entry stored under `"0xaaa"` carries
`transactionId = "0xaaa"`. -/
theorem c9_witness :
    (⟨"0xA", "sneakers", 2, 300, "0xaaa"⟩ : PurchaseReceipt).transactionId = "0xaaa" := by
  have h := c9_key_invariant demoEnv [demoLog1] emptyLedger
    (fun k r hk => by simp [emptyLedger] at hk) "0xaaa"
    ⟨"0xA", "sneakers", 2, 300, "0xaaa"⟩ (by decide)
  exact h.1

/-! ### Claim C10 -/

/-- Claim C10: processing a batch modifies only the keys that are the
transaction hashes of the successfully processed logs (the prefix before the
first failure); every other key is left exactly as it was; no entry is ever
deleted; and a processed key whose log is not followed by another processed
log with the same hash ends up holding that log's freshly assembled receipt
(last write wins). -/
theorem c10_frame (env : Env) (logs : List Log) (ledger : Ledger)
    (henv : ∀ h tx, env.getTransaction h = Except.ok tx → tx.hash = h) :
    (∀ k, (∀ l ∈ logs.takeWhile (stepOk env), l.transactionHash ≠ k) →
        (processPurchases env logs ledger).1.1 k = ledger k)
  ∧ (∀ k r, ledger k = some r →
        ∃ r', (processPurchases env logs ledger).1.1 k = some r')
  ∧ (∀ pre l post, logs.takeWhile (stepOk env) = pre ++ l :: post →
        (∀ l' ∈ post, l'.transactionHash ≠ l.transactionHash) →
        (processPurchases env logs ledger).1.1 l.transactionHash
          = receiptFor env l) := by
  refine ⟨?_, ?_, ?_⟩
  · intro k hk
    rw [processPurchases_ledger]
    apply foldl_applyLog_frame
    intro l hl hkey
    have hst := stepOk_of_mem_takeWhile env hl
    rw [keyFor_of_stepOk env l hst henv] at hkey
    exact hk l hl (Option.some.inj hkey)
  · intro k r h
    rw [processPurchases_ledger]
    exact foldl_applyLog_some env _ ledger k r h
  · intro pre l post heq hpost
    have hstl : stepOk env l = true := stepOk_of_mem_takeWhile env (by
      rw [heq]
      exact List.mem_append_right pre (List.mem_cons_self l post))
    have hframe : ∀ l' ∈ post, keyFor env l' ≠ some l.transactionHash := by
      intro l' hl' hkey
      have hstl' : stepOk env l' = true := stepOk_of_mem_takeWhile env (by
        rw [heq]
        exact List.mem_append_right pre (List.mem_cons_of_mem l hl'))
      rw [keyFor_of_stepOk env l' hstl' henv] at hkey
      exact hpost l' hl' (Option.some.inj hkey)
    rw [processPurchases_ledger, heq, List.foldl_append, List.foldl_cons,
      foldl_applyLog_frame env post
        (applyLog env (pre.foldl (applyLog env) ledger) l) l.transactionHash hframe]
    exact applyLog_self env (pre.foldl (applyLog env) ledger) l hstl henv

/-- Claim C10 witness: processing `demoLog1` over a ledger holding an entry
under `"0xzzz"` leaves that entry untouched and writes the fresh receipt
under `"0xaaa"`. -/
theorem c10_witness :
    (processPurchases demoEnv [demoLog1]
        (upsert emptyLedger "0xzzz" demoReceiptZ)).1.1 "0xzzz" = some demoReceiptZ
  ∧ (processPurchases demoEnv [demoLog1]
        (upsert emptyLedger "0xzzz" demoReceiptZ)).1.1 "0xaaa"
      = some ⟨"0xA", "sneakers", 2, 300, "0xaaa"⟩ := by
  have h := c10_frame demoEnv [demoLog1]
    (upsert emptyLedger "0xzzz" demoReceiptZ) demoEnv_hash
  constructor
  · have h1 := h.1 "0xzzz" (by decide)
    rw [h1]
    decide
  · have h3 := h.2.2 [] demoLog1 [] (by decide) (by decide)
    exact h3.trans (by decide)
